import Mathlib

/-!
The in-memory diagram cache of `internal/cache.go`.

A shallow embedding of `inMemoryDiagramCache` and its five operations.

* A Go `error` value is a `GoError`; a nil error is `none : Option GoError`.
* A `*Diagram` is an `Option D`: `none` is the nil pointer, `some d` points at the
  diagram `d`.  The type `Diagram` and its method `ID()` are not part of this file's
  source, so `D` and `ID` are parameters of every operation.
* The Go map `map[string]*Diagram` is an association list with unique keys
  (`AList`): `m[k] = v` is `AList.insert`, `v, ok := m[k]` is `AList.lookup`,
  `delete(m, k)` is `AList.erase`, `len(m)` is the number of entries.
* A method with a pointer receiver that mutates the map returns the new cache next to
  its Go results.
-/

namespace MermaidCache

/-- Go error values: a leaf error with its message, or the value built by
`fmt.Errorf` with a `%w` verb, which keeps the full message and the wrapped error. -/
inductive GoError where
  | leaf (msg : String)
  | wrapError (msg : String) (err : GoError)
  deriving DecidableEq, Repr

namespace GoError

/-- The method `Error()`: the message of the error. -/
def Error : GoError → String
  | leaf msg => msg
  | wrapError msg _ => msg

/-- The method `Unwrap()`: the wrapped cause, if any. -/
def Unwrap : GoError → Option GoError
  | leaf _ => none
  | wrapError _ err => some err

end GoError

/-- The call `fmt.Errorf(format ++ "%w", err)` for a format without further verbs. -/
def Errorf_w (format : String) (err : GoError) : GoError :=
  GoError.wrapError (format ++ err.Error) err

/-- The struct `inMemoryDiagramCache`: one field, the map from ID to `*Diagram`. -/
structure inMemoryDiagramCache (D : Type) where
  idToDiagram : AList (fun _ : String => Option D)

section Operations

variable {D : Type}

/-- The constructor `NewDiagramCache`: the cache over the empty map. -/
def NewDiagramCache : inMemoryDiagramCache D :=
  { idToDiagram := ∅ }

variable (ID : Option D → Except GoError String)

/-- The method `Store`: the cache after the call, and the returned error. -/
def Store (c : inMemoryDiagramCache D) (diagram : Option D) :
    inMemoryDiagramCache D × Option GoError :=
  match ID diagram with
  | .error err => (c, some (Errorf_w "cannot get diagram ID: " err))
  | .ok id => ({ idToDiagram := c.idToDiagram.insert id diagram }, none)

/-- The method `Has`. -/
def Has (c : inMemoryDiagramCache D) (diagram : Option D) : Bool × Option GoError :=
  match ID diagram with
  | .error err => (false, some (Errorf_w "cannot get diagram ID: " err))
  | .ok id =>
    match c.idToDiagram.lookup id with
    | some (some _) => (true, none)
    | _ => (false, none)

/-- The method `Get`. -/
def Get (c : inMemoryDiagramCache D) (diagram : Option D) : Option D × Option GoError :=
  match ID diagram with
  | .error err => (none, some err)
  | .ok id =>
    match c.idToDiagram.lookup id with
    | some (some d) => (some d, none)
    | _ => (none, none)

/-- The method `GetAll`: one slot per map entry, filled with the entry's value. -/
def GetAll (c : inMemoryDiagramCache D) : List (Option D) × Option GoError :=
  (c.idToDiagram.entries.map (fun e => e.2), none)

/-- The method `Delete`: the cache after the call, and the returned error. -/
def Delete (c : inMemoryDiagramCache D) (diagram : Option D) :
    inMemoryDiagramCache D × Option GoError :=
  match ID diagram with
  | .error err => (c, some err)
  | .ok id =>
    match c.idToDiagram.lookup id with
    | some _ => ({ idToDiagram := c.idToDiagram.erase id }, none)
    | none => (c, none)

/-- A mutating call on the cache. -/
inductive Call (D : Type) where
  | store (diagram : Option D)
  | delete (diagram : Option D)

/-- The cache after one mutating call. -/
def Call.apply (c : inMemoryDiagramCache D) : Call D → inMemoryDiagramCache D
  | .store diagram => (Store ID c diagram).1
  | .delete diagram => (Delete ID c diagram).1

/-- The cache reached from `NewDiagramCache` by a sequence of `Store` and `Delete` calls. -/
def run (calls : List (Call D)) : inMemoryDiagramCache D :=
  calls.foldl (Call.apply ID) NewDiagramCache

/-- Every entry of the map is keyed by the ID of the value it holds. -/
def WellKeyed (c : inMemoryDiagramCache D) : Prop :=
  ∀ e ∈ c.idToDiagram.entries, ID e.2 = .ok e.1

end Operations

/-! ## Sample data

Diagrams are numbered; `sampleID` gives diagrams 0 and 1 the ID `d1`, diagram 2 the ID
`d2`, and fails on everything else. -/

/-- An ID computation on numbered diagrams that fails outside diagrams 0, 1, 2. -/
def sampleID : Option Nat → Except GoError String
  | some 0 => .ok "d1"
  | some 1 => .ok "d1"
  | some 2 => .ok "d2"
  | _ => .error (GoError.leaf "boom")

/-- A map state that holds diagram 0 under the key `k0`. -/
def staleCache : inMemoryDiagramCache Nat :=
  { idToDiagram := AList.insert "k0" (some 0) ∅ }

/-- A map state whose entry for `d1` holds a nil pointer. -/
def nilEntryCache : inMemoryDiagramCache Nat :=
  { idToDiagram := AList.insert "d1" none ∅ }

/-! ## Lemmas on the map -/

section MapLemmas

variable {D : Type}

/-- A member of a duplicate-free list is counted once. -/
theorem count_eq_one_of_nodup {α : Type} [BEq α] [LawfulBEq α] {a : α} {l : List α}
    (hn : l.Nodup) (h : a ∈ l) : l.count a = 1 := by
  induction l with
  | nil => cases h
  | cons x xs ih =>
    obtain ⟨hx, hxs⟩ := List.nodup_cons.1 hn
    by_cases hax : a = x
    · subst hax
      rw [List.count_cons_self, List.count_eq_zero_of_not_mem hx]
    · rw [List.count_cons_of_ne hax]
      exact ih hxs (List.mem_of_ne_of_mem hax h)

/-- An entry that survives `kerase k` was an entry before and has a key other than `k`. -/
theorem mem_kerase_entries {m : AList (fun _ : String => Option D)} {k : String}
    {e : Sigma (fun _ : String => Option D)} (he : e ∈ List.kerase k m.entries) :
    e ∈ m.entries ∧ e.1 ≠ k := by
  refine ⟨(List.kerase_sublist k m.entries).subset he, ?_⟩
  intro hk
  have hmem : e.1 ∈ (List.kerase k m.entries).keys := List.mem_keys_of_mem he
  rw [hk] at hmem
  exact List.not_mem_keys_kerase k m.nodupKeys hmem

/-- The values `GetAll` returns after `m[k] = v`: `v`, then the values of the other keys. -/
theorem getAll_insert (m : AList (fun _ : String => Option D)) (k : String) (v : Option D) :
    (GetAll { idToDiagram := m.insert k v }).1
      = v :: (List.kerase k m.entries).map (fun e => e.2) := by
  simp [GetAll, AList.insert_entries]

variable (ID : Option D → Except GoError String)

/-- After a successful `Store` of `d`, a `Get` with the same ID returns `d`. -/
theorem get_store (c : inMemoryDiagramCache D) (d d' : Option D) (id : String)
    (hd : ID d = .ok id) (hd' : ID d' = .ok id) :
    Get ID (Store ID c d).1 d' = (d, none) := by
  simp only [Store, Get, hd, hd', AList.lookup_insert]
  cases d <;> rfl

theorem wellKeyed_new : WellKeyed ID (NewDiagramCache : inMemoryDiagramCache D) := by
  intro e he
  cases he

theorem wellKeyed_store {c : inMemoryDiagramCache D} (hw : WellKeyed ID c)
    (diagram : Option D) : WellKeyed ID (Store ID c diagram).1 := by
  unfold Store
  cases h : ID diagram with
  | error err => exact hw
  | ok id =>
    intro e he
    simp only [AList.insert_entries, List.mem_cons] at he
    rcases he with rfl | he
    · exact h
    · exact hw e (mem_kerase_entries he).1

theorem wellKeyed_delete {c : inMemoryDiagramCache D} (hw : WellKeyed ID c)
    (diagram : Option D) : WellKeyed ID (Delete ID c diagram).1 := by
  unfold Delete
  cases h : ID diagram with
  | error err => exact hw
  | ok id =>
    cases hl : c.idToDiagram.lookup id with
    | none => simpa only [hl] using hw
    | some v =>
      intro e he
      simp only [hl] at he
      exact hw e (mem_kerase_entries he).1

theorem wellKeyed_run (calls : List (Call D)) : WellKeyed ID (run ID calls) := by
  unfold run
  induction calls using List.reverseRecOn with
  | nil => exact wellKeyed_new ID
  | append_singleton calls call ih =>
    rw [List.foldl_append]
    cases call with
    | store diagram => exact wellKeyed_store ID ih diagram
    | delete diagram => exact wellKeyed_delete ID ih diagram

/-- In a well-keyed map, a value whose ID is `k` is not held under any other key. -/
theorem not_mem_values_kerase {c : inMemoryDiagramCache D} (hw : WellKeyed ID c)
    {v : Option D} {k : String} (hv : ID v = .ok k) :
    v ∉ (List.kerase k c.idToDiagram.entries).map (fun e => e.2) := by
  intro hmem
  obtain ⟨e, he, rfl⟩ := List.mem_map.1 hmem
  obtain ⟨hin, hne⟩ := mem_kerase_entries he
  have := hw e hin
  rw [hv] at this
  exact hne (Except.ok.inj this).symm

/-- A value is returned by `GetAll` exactly when some key maps to it. -/
theorem mem_getAll_iff (c : inMemoryDiagramCache D) (v : Option D) :
    v ∈ (GetAll c).1 ↔ ∃ k, c.idToDiagram.lookup k = some v := by
  simp only [GetAll, List.mem_map]
  constructor
  · rintro ⟨⟨k, w⟩, he, rfl⟩
    exact ⟨k, AList.mem_lookup_iff.2 he⟩
  · rintro ⟨k, hk⟩
    exact ⟨⟨k, v⟩, AList.mem_lookup_iff.1 hk, rfl⟩

/-- In a well-keyed map, a returned value sits under its own ID. -/
theorem lookup_of_mem_getAll {c : inMemoryDiagramCache D} (hw : WellKeyed ID c)
    {v : Option D} {k : String} (hv : ID v = .ok k) (hmem : v ∈ (GetAll c).1) :
    c.idToDiagram.lookup k = some v := by
  simp only [GetAll, List.mem_map] at hmem
  obtain ⟨⟨k', w⟩, he, rfl⟩ := hmem
  have hk := hw _ he
  simp only [hv, Except.ok.injEq] at hk
  subst hk
  exact AList.mem_lookup_iff.2 he

/-- In a well-keyed map, no value is returned twice by `GetAll`. -/
theorem nodup_getAll {c : inMemoryDiagramCache D} (hw : WellKeyed ID c) :
    (GetAll c).1.Nodup := by
  simp only [GetAll]
  refine List.Nodup.map_on ?_ c.idToDiagram.nodupKeys.nodup
  intro x hx y hy hxy
  have h1 := hw x hx
  have h2 := hw y hy
  rw [hxy, h2, Except.ok.injEq] at h1
  exact c.idToDiagram.nodupKeys.eq_of_fst_eq hx hy h1.symm

/-- The number of values `GetAll` returns is the number of distinct keys of the map. -/
theorem length_getAll (c : inMemoryDiagramCache D) :
    (GetAll c).1.length = c.idToDiagram.keys.toFinset.card := by
  rw [List.toFinset_card_of_nodup c.idToDiagram.keys_nodup]
  simp [GetAll, AList.keys, List.keys]

/-- Erasing a key the map does not hold leaves the number of entries as it is. -/
theorem length_kerase_of_lookup_none {m : AList (fun _ : String => Option D)} {k : String}
    (h : m.lookup k = none) : (List.kerase k m.entries).length = m.entries.length := by
  have hk : k ∉ m.entries.keys := fun hmem =>
    (AList.lookup_eq_none.1 h) (AList.mem_keys.2 hmem)
  rw [List.kerase_of_not_mem_keys hk]

/-- Erasing a key the map holds removes exactly one entry. -/
theorem length_kerase_of_lookup_some {m : AList (fun _ : String => Option D)} {k : String}
    {v : Option D} (h : m.lookup k = some v) :
    (List.kerase k m.entries).length + 1 = m.entries.length := by
  have hs : (m.lookup k).isSome = true := by rw [h]; rfl
  have hk : k ∈ m.entries.keys := AList.mem_keys.1 (AList.lookup_isSome.1 hs)
  obtain ⟨b, l₁, l₂, -, hl, hke⟩ := List.exists_of_kerase hk
  rw [hke, hl]
  simp only [List.length_append, List.length_cons]
  omega

/-- The diagrams `GetAll` returns from a well-keyed map have pairwise different IDs. -/
theorem pairwise_getAll {c : inMemoryDiagramCache D} (hw : WellKeyed ID c) :
    (GetAll c).1.Pairwise (fun v w => ID v ≠ ID w) := by
  simp only [GetAll, List.pairwise_map]
  refine List.Pairwise.imp_of_mem ?_ c.idToDiagram.nodupKeys.pairwise_ne
  intro x y hx hy hne heq
  rw [hw x hx, hw y hy, Except.ok.injEq] at heq
  exact hne heq

end MapLemmas

/-! ## Store then Get -/

section Claims

variable {D : Type} (ID : Option D → Except GoError String)

/-- C1: in every cache state, for any two arguments `d` and `d'` whose ID computations
succeed with the same ID, `Store(d)` returns no error and `Get(d')` on the resulting
cache returns exactly `d` with no error. -/
theorem C1_store_then_get (c : inMemoryDiagramCache D) (d d' : Option D) (id : String)
    (hd : ID d = .ok id) (hd' : ID d' = .ok id) :
    (Store ID c d).2 = none ∧ Get ID (Store ID c d).1 d' = (d, none) := by
  refine ⟨?_, get_store ID c d d' id hd hd'⟩
  simp only [Store, hd]

theorem C1_store_then_get_witness :
    sampleID (some 0) = .ok "d1" ∧ sampleID (some 1) = .ok "d1" ∧
    (Store sampleID staleCache (some 0)).2 = none ∧
    Get sampleID (Store sampleID staleCache (some 0)).1 (some 1) = (some 0, none) :=
  ⟨rfl, rfl, C1_store_then_get sampleID staleCache (some 0) (some 1) "d1" rfl rfl⟩

/-! ## Has before and after Store -/

/-- C2: for every diagram `d` (a non-nil pointer) whose ID computation succeeds with `id`,
`Has(d)` is false with no error on the cache of `NewDiagramCache` and on every cache
whose map holds no entry for `id`, and after `Store(d)`, which returns no error in
every prior state, `Has(d)` is true with no error. -/
theorem C2_has_before_and_after_store (c : inMemoryDiagramCache D) (d : D) (id : String)
    (hd : ID (some d) = .ok id) :
    Has ID NewDiagramCache (some d) = (false, none) ∧
    (c.idToDiagram.lookup id = none → Has ID c (some d) = (false, none)) ∧
    (Store ID c (some d)).2 = none ∧
    Has ID (Store ID c (some d)).1 (some d) = (true, none) := by
  refine ⟨?_, ?_, ?_, ?_⟩
  · simp [Has, hd, NewDiagramCache]
  · intro hl
    simp [Has, hd, hl]
  · simp [Store, hd]
  · simp [Has, Store, hd]

theorem C2_has_before_and_after_store_witness :
    sampleID (some 1) = .ok "d1" ∧
    staleCache.idToDiagram.lookup "d1" = none ∧
    Has sampleID NewDiagramCache (some 1) = (false, none) ∧
    Has sampleID staleCache (some 1) = (false, none) ∧
    (Store sampleID staleCache (some 1)).2 = none ∧
    Has sampleID (Store sampleID staleCache (some 1)).1 (some 1) = (true, none) :=
  have hl : staleCache.idToDiagram.lookup "d1" = none := by
    simp only [staleCache]
    rw [AList.lookup_insert_ne (by decide), AList.lookup_empty]
  have h := C2_has_before_and_after_store sampleID staleCache 1 "d1" rfl
  ⟨rfl, hl, h.1, h.2.1 hl, h.2.2.1, h.2.2.2⟩

/-! ## Overwrite -/

/-- C3: for `a` and `b` whose ID computations succeed with the same `id`, after
`Store(a)` and then `Store(b)` only the latest survives.  In every map state `c`, every
`Get` with that ID returns `b`, and the result of `GetAll` is as long as it was after
`Store(a)` alone.  In every cache state reached from `NewDiagramCache` by a sequence of
`Store` and `Delete` calls, the result of `GetAll` contains `b` exactly once and does not
contain `a` when `a ≠ b`. -/
theorem C3_overwrite [DecidableEq D] (c : inMemoryDiagramCache D) (calls : List (Call D))
    (a b d' : Option D) (id : String)
    (ha : ID a = .ok id) (hb : ID b = .ok id) (hd' : ID d' = .ok id) :
    Get ID (Store ID (Store ID c a).1 b).1 d' = (b, none) ∧
    (GetAll (Store ID (Store ID c a).1 b).1).1.length
      = (GetAll (Store ID c a).1).1.length ∧
    (GetAll (Store ID (Store ID (run ID calls) a).1 b).1).1.count b = 1 ∧
    (a ≠ b → a ∉ (GetAll (Store ID (Store ID (run ID calls) a).1 b).1).1) := by
  have hstate : ∀ s : inMemoryDiagramCache D,
      (Store ID (Store ID s a).1 b).1 = { idToDiagram := s.idToDiagram.insert id b } := by
    intro s
    simp [Store, ha, hb, AList.insert_insert]
  have hfirst : (Store ID c a).1 = { idToDiagram := c.idToDiagram.insert id a } := by
    simp [Store, ha]
  have hw := wellKeyed_run ID calls
  refine ⟨get_store ID (Store ID c a).1 b d' id hb hd', ?_, ?_, ?_⟩
  · rw [hstate, hfirst, getAll_insert, getAll_insert]
    simp
  · rw [hstate, getAll_insert, List.count_cons_self,
      List.count_eq_zero_of_not_mem (not_mem_values_kerase ID hw hb)]
  · intro hab hmem
    rw [hstate, getAll_insert, List.mem_cons] at hmem
    rcases hmem with h | h
    · exact hab h
    · exact not_mem_values_kerase ID hw ha h

theorem C3_overwrite_witness :
    sampleID (some 0) = .ok "d1" ∧ sampleID (some 1) = .ok "d1" ∧
    Get sampleID (Store sampleID (Store sampleID staleCache (some 0)).1 (some 1)).1 (some 0)
      = (some 1, none) ∧
    (GetAll (Store sampleID (Store sampleID staleCache (some 0)).1 (some 1)).1).1.length
      = (GetAll (Store sampleID staleCache (some 0)).1).1.length ∧
    (GetAll (Store sampleID (Store sampleID (run sampleID [Call.store (some 2)]) (some 0)).1
          (some 1)).1).1.count (some 1) = 1 ∧
    (some 0 : Option Nat) ≠ some 1 ∧
    some 0 ∉ (GetAll (Store sampleID
          (Store sampleID (run sampleID [Call.store (some 2)]) (some 0)).1 (some 1)).1).1 :=
  have h := C3_overwrite sampleID staleCache [Call.store (some 2)] (some 0) (some 1)
    (some 0) "d1" rfl rfl rfl
  ⟨rfl, rfl, h.1, h.2.1, h.2.2.1, by decide, h.2.2.2 (by decide)⟩

/-! ## Delete -/

/-- C4: in every cache state, for `d` whose ID computation succeeds, `Delete(d)` returns
no error, and in the resulting state `Has(d')` is false and `Get(d')` is nil, both with
no error, for every `d'` with the same ID as `d`. -/
theorem C4_delete_then_absent (c : inMemoryDiagramCache D) (d d' : Option D) (id : String)
    (hd : ID d = .ok id) (hd' : ID d' = .ok id) :
    (Delete ID c d).2 = none ∧
    Has ID (Delete ID c d).1 d' = (false, none) ∧
    Get ID (Delete ID c d).1 d' = (none, none) := by
  unfold Delete
  rw [hd]
  cases hl : c.idToDiagram.lookup id with
  | none => simp [Has, Get, hd', hl]
  | some v => simp [Has, Get, hd', hl, AList.lookup_erase]

theorem C4_delete_then_absent_witness :
    sampleID (some 0) = .ok "d1" ∧ sampleID (some 1) = .ok "d1" ∧
    (Delete sampleID (run sampleID [Call.store (some 0)]) (some 0)).2 = none ∧
    Has sampleID (Delete sampleID (run sampleID [Call.store (some 0)]) (some 0)).1 (some 1)
      = (false, none) ∧
    Get sampleID (Delete sampleID (run sampleID [Call.store (some 0)]) (some 0)).1 (some 1)
      = (none, none) :=
  ⟨rfl, rfl,
    C4_delete_then_absent sampleID (run sampleID [Call.store (some 0)]) (some 0) (some 1) "d1"
      rfl rfl⟩

/-! ## GetAll -/

/-- C5: in every cache state reached from `NewDiagramCache` by a sequence of `Store` and
`Delete` calls, `GetAll` returns no error; its result is as long as the number of
distinct IDs in the map; a value is in the result exactly when the map holds it; and for
`d` whose ID computation succeeds with `id`, `Has(d)` is true exactly when the result
contains a diagram of ID `id`, and every such diagram in the result is the one `Get(d)`
returns and occurs in the result exactly once. -/
theorem C5_getAll_exact [DecidableEq D] (calls : List (Call D)) :
    (GetAll (run ID calls)).2 = none ∧
    (GetAll (run ID calls)).1.length = (run ID calls).idToDiagram.keys.toFinset.card ∧
    (∀ v, v ∈ (GetAll (run ID calls)).1 ↔ ∃ k, (run ID calls).idToDiagram.lookup k = some v) ∧
    ∀ (d : Option D) (id : String), ID d = .ok id →
      ((Has ID (run ID calls) d).1 = true ↔
        ∃ e : D, some e ∈ (GetAll (run ID calls)).1 ∧ ID (some e) = .ok id) ∧
      ∀ e : D, some e ∈ (GetAll (run ID calls)).1 → ID (some e) = .ok id →
        Get ID (run ID calls) d = (some e, none) ∧
        (GetAll (run ID calls)).1.count (some e) = 1 := by
  have hw := wellKeyed_run ID calls
  refine ⟨rfl, length_getAll _, mem_getAll_iff _, ?_⟩
  intro d id hd
  constructor
  · constructor
    · intro hh
      simp only [Has, hd] at hh
      cases hl : (run ID calls).idToDiagram.lookup id with
      | none => simp [hl] at hh
      | some v =>
        cases v with
        | none => simp [hl] at hh
        | some e =>
          have hmem : some e ∈ (GetAll (run ID calls)).1 := (mem_getAll_iff _ _).2 ⟨id, hl⟩
          have he : (⟨id, some e⟩ : Sigma (fun _ : String => Option D))
              ∈ (run ID calls).idToDiagram.entries := AList.mem_lookup_iff.1 hl
          exact ⟨e, hmem, hw _ he⟩
    · rintro ⟨e, hmem, he⟩
      have hl := lookup_of_mem_getAll ID hw he hmem
      simp [Has, hd, hl]
  · intro e hmem he
    have hl := lookup_of_mem_getAll ID hw he hmem
    refine ⟨?_, count_eq_one_of_nodup (nodup_getAll ID hw) hmem⟩
    simp [Get, hd, hl]

theorem C5_getAll_exact_witness :
    sampleID (some 1) = .ok "d1" ∧
    some 0 ∈ (GetAll (run sampleID [Call.store (some 0), Call.store (some 2)])).1 ∧
    sampleID (some 0) = .ok "d1" ∧
    Get sampleID (run sampleID [Call.store (some 0), Call.store (some 2)]) (some 1)
      = (some 0, none) ∧
    (GetAll (run sampleID [Call.store (some 0), Call.store (some 2)])).1.count (some 0) = 1 :=
  have hmem : some 0 ∈ (GetAll (run sampleID [Call.store (some 0), Call.store (some 2)])).1 := by
    simp [GetAll, run, Call.apply, Store, sampleID, NewDiagramCache, AList.insert_entries,
      List.kerase]
  ⟨rfl, hmem, rfl,
    ((C5_getAll_exact sampleID [Call.store (some 0), Call.store (some 2)]).2.2.2
      (some 1) "d1" rfl).2 0 hmem rfl⟩

/-! ## Errors -/

/-- C6: in every cache state and for every argument `d`, each of `Store(d)`, `Has(d)`,
`Get(d)` and `Delete(d)` returns an error exactly when the computation of the ID of `d`
fails; when it fails, `Has` returns false and `Get` returns nil next to the error; and
`GetAll` returns no error in any state. -/
theorem C6_error_iff_id_fails (c : inMemoryDiagramCache D) (d : Option D) :
    ((Store ID c d).2 ≠ none ↔ ∃ err, ID d = .error err) ∧
    ((Has ID c d).2 ≠ none ↔ ∃ err, ID d = .error err) ∧
    ((Get ID c d).2 ≠ none ↔ ∃ err, ID d = .error err) ∧
    ((Delete ID c d).2 ≠ none ↔ ∃ err, ID d = .error err) ∧
    ((∃ err, ID d = .error err) → (Has ID c d).1 = false ∧ (Get ID c d).1 = none) ∧
    (GetAll c).2 = none := by
  cases h : ID d with
  | error err =>
    simp [Store, Has, Get, Delete, GetAll, h]
  | ok id =>
    refine ⟨?_, ?_, ?_, ?_, ?_, rfl⟩
    · simp [Store, h]
    · simp only [Has, h]
      cases hl : c.idToDiagram.lookup id with
      | none => simp
      | some v => cases v <;> simp
    · simp only [Get, h]
      cases hl : c.idToDiagram.lookup id with
      | none => simp
      | some v => cases v <;> simp
    · simp only [Delete, h]
      cases hl : c.idToDiagram.lookup id with
      | none => simp
      | some v => simp
    · simp

theorem C6_error_iff_id_fails_witness :
    (∃ err, sampleID (some 7) = .error err) ∧
    (Has sampleID staleCache (some 7)).1 = false ∧ (Get sampleID staleCache (some 7)).1 = none :=
  ⟨⟨GoError.leaf "boom", rfl⟩,
    (C6_error_iff_id_fails sampleID staleCache (some 7)).2.2.2.2.1 ⟨GoError.leaf "boom", rfl⟩⟩

/-- C7 at a failing input: the ID computation of diagram 7 fails with the error `boom`;
`Store` and `Has` return that error wrapped by `fmt.Errorf` under the message
`cannot get diagram ID: boom`, while `Get` and `Delete` return the error `boom` itself,
with no added context and nothing to unwrap, so the four errors are not the same. -/
theorem C7_get_delete_return_bare_error :
    sampleID (some 7) = .error (GoError.leaf "boom") ∧
    (Store sampleID NewDiagramCache (some 7)).2
      = some (GoError.wrapError "cannot get diagram ID: boom" (GoError.leaf "boom")) ∧
    (Has sampleID NewDiagramCache (some 7)).2
      = some (GoError.wrapError "cannot get diagram ID: boom" (GoError.leaf "boom")) ∧
    (Get sampleID NewDiagramCache (some 7)).2 = some (GoError.leaf "boom") ∧
    (Delete sampleID NewDiagramCache (some 7)).2 = some (GoError.leaf "boom") ∧
    (GoError.leaf "boom").Error = "boom" ∧
    (GoError.leaf "boom").Unwrap = none ∧
    (Get sampleID NewDiagramCache (some 7)).2 ≠ (Store sampleID NewDiagramCache (some 7)).2 ∧
    (Delete sampleID NewDiagramCache (some 7)).2
      ≠ (Has sampleID NewDiagramCache (some 7)).2 := by
  refine ⟨rfl, ?_, ?_, rfl, rfl, rfl, rfl, ?_, ?_⟩ <;>
    simp [Store, Has, Get, Delete, sampleID, Errorf_w, GoError.Error]

/-! ## Get on a miss -/

/-- C8: in every cache state, for `d` whose ID computation succeeds with `id`, `Get(d)`
returns no error; it returns the value the map holds under `id` when there is an entry,
and nil with no error when there is none; and a `Get` whose ID computation fails returns
a non-nil error, so its result differs from that of a miss. -/
theorem C8_get_miss_is_not_an_error (c : inMemoryDiagramCache D) (d : Option D) (id : String)
    (hd : ID d = .ok id) :
    (Get ID c d).2 = none ∧
    (∀ v, c.idToDiagram.lookup id = some v → Get ID c d = (v, none)) ∧
    (c.idToDiagram.lookup id = none → Get ID c d = (none, none)) ∧
    (∀ (c2 : inMemoryDiagramCache D) (d2 : Option D) (err : GoError), ID d2 = .error err →
      (Get ID c2 d2).2 = some err ∧ Get ID c2 d2 ≠ Get ID c d) := by
  have hnone : (Get ID c d).2 = none := by
    simp only [Get, hd]
    cases hl : c.idToDiagram.lookup id with
    | none => rfl
    | some v => cases v <;> rfl
  refine ⟨hnone, ?_, ?_, ?_⟩
  · intro v hl
    simp only [Get, hd, hl]
    cases v <;> rfl
  · intro hl
    simp only [Get, hd, hl]
  · intro c2 d2 err h2
    have h2err : (Get ID c2 d2).2 = some err := by simp only [Get, h2]
    refine ⟨h2err, ?_⟩
    intro heq
    rw [heq, hnone] at h2err
    cases h2err

theorem C8_get_miss_is_not_an_error_witness :
    sampleID (some 2) = .ok "d2" ∧
    staleCache.idToDiagram.lookup "d2" = none ∧
    (Get sampleID staleCache (some 2)).2 = none ∧
    Get sampleID staleCache (some 2) = (none, none) ∧
    sampleID (some 7) = .error (GoError.leaf "boom") ∧
    (Get sampleID staleCache (some 7)).2 = some (GoError.leaf "boom") ∧
    Get sampleID staleCache (some 7) ≠ Get sampleID staleCache (some 2) :=
  have hl : staleCache.idToDiagram.lookup "d2" = none := by
    simp only [staleCache]
    rw [AList.lookup_insert_ne (by decide), AList.lookup_empty]
  have h := C8_get_miss_is_not_an_error sampleID staleCache (some 2) "d2" rfl
  ⟨rfl, hl, h.1, h.2.2.1 hl, rfl,
    (h.2.2.2 staleCache (some 7) (GoError.leaf "boom") rfl).1,
    (h.2.2.2 staleCache (some 7) (GoError.leaf "boom") rfl).2⟩

/-! ## Has and nil entries -/

/-- C9: in every cache state, for `d` whose ID computation succeeds with `id`, `Has(d)`
is true exactly when the map holds an entry for `id` whose value is not nil; an entry
whose value is nil gives false with no error; and `Has(d)` is true exactly when `Get(d)`
returns a non-nil diagram. -/
theorem C9_has_iff_non_nil_entry (c : inMemoryDiagramCache D) (d : Option D) (id : String)
    (hd : ID d = .ok id) :
    ((Has ID c d).1 = true ↔ ∃ e : D, c.idToDiagram.lookup id = some (some e)) ∧
    (c.idToDiagram.lookup id = some none → Has ID c d = (false, none)) ∧
    ((Has ID c d).1 = true ↔ (Get ID c d).1 ≠ none) := by
  simp only [Has, Get, hd]
  cases hl : c.idToDiagram.lookup id with
  | none => simp
  | some v => cases v <;> simp

theorem C9_has_iff_non_nil_entry_witness :
    sampleID (some 0) = .ok "d1" ∧
    nilEntryCache.idToDiagram.lookup "d1" = some none ∧
    Has sampleID nilEntryCache (some 0) = (false, none) :=
  have hl : nilEntryCache.idToDiagram.lookup "d1" = some none := by
    simp only [nilEntryCache, AList.lookup_insert]
  ⟨rfl, hl, (C9_has_iff_non_nil_entry sampleID nilEntryCache (some 0) "d1" rfl).2.1 hl⟩

/-! ## Delete on a miss -/

/-- C10: in every cache state, for `d` whose ID computation succeeds with `id`, when the
map holds no entry for `id` the call `Delete(d)` returns no error and leaves the cache
as it was; `Delete(d)` returns no error in any case; and a second `Delete(d)` right
after the first returns the same cache and the same nil error as the first. -/
theorem C10_delete_idempotent (c : inMemoryDiagramCache D) (d : Option D) (id : String)
    (hd : ID d = .ok id) :
    (c.idToDiagram.lookup id = none → Delete ID c d = (c, none)) ∧
    (Delete ID c d).2 = none ∧
    Delete ID (Delete ID c d).1 d = Delete ID c d := by
  simp only [Delete, hd]
  cases hl : c.idToDiagram.lookup id with
  | none => simp [hl]
  | some v => simp [AList.lookup_erase]

theorem C10_delete_idempotent_witness :
    sampleID (some 2) = .ok "d2" ∧
    staleCache.idToDiagram.lookup "d2" = none ∧
    Delete sampleID staleCache (some 2) = (staleCache, none) ∧
    Delete sampleID (Delete sampleID staleCache (some 2)).1 (some 2)
      = Delete sampleID staleCache (some 2) :=
  have hl : staleCache.idToDiagram.lookup "d2" = none := by
    simp only [staleCache]
    rw [AList.lookup_insert_ne (by decide), AList.lookup_empty]
  ⟨rfl, hl, (C10_delete_idempotent sampleID staleCache (some 2) "d2" rfl).1 hl,
    (C10_delete_idempotent sampleID staleCache (some 2) "d2" rfl).2.2⟩

/-! ## The example scenario -/

/-- C11: for every diagram `A` whose ID computation succeeds, on the cache of
`NewDiagramCache`: `Store(A)` returns no error, then `Has(A)` is true, then `Get(A)`
returns `A`, then `Delete(A)` returns no error, then `Has(A)` is false, then `GetAll` is
the empty list; and `GetAll` on the new cache is the empty list too. -/
theorem C11_scenario (A : D) (id : String) (hA : ID (some A) = .ok id) :
    (Store ID NewDiagramCache (some A)).2 = none ∧
    Has ID (Store ID NewDiagramCache (some A)).1 (some A) = (true, none) ∧
    Get ID (Store ID NewDiagramCache (some A)).1 (some A) = (some A, none) ∧
    (Delete ID (Store ID NewDiagramCache (some A)).1 (some A)).2 = none ∧
    Has ID (Delete ID (Store ID NewDiagramCache (some A)).1 (some A)).1 (some A)
      = (false, none) ∧
    GetAll (Delete ID (Store ID NewDiagramCache (some A)).1 (some A)).1 = ([], none) ∧
    GetAll (NewDiagramCache : inMemoryDiagramCache D) = ([], none) := by
  have hs : (Store ID NewDiagramCache (some A)).1
      = { idToDiagram := AList.insert id (some A) ∅ } := by
    simp only [Store, hA, NewDiagramCache]
  have hdel : (Delete ID (Store ID NewDiagramCache (some A)).1 (some A))
      = ({ idToDiagram := AList.erase id (AList.insert id (some A) ∅) }, none) := by
    rw [hs]
    simp only [Delete, hA, AList.lookup_insert]
  refine ⟨?_, ?_, get_store ID _ _ _ id hA hA, ?_, ?_, ?_, rfl⟩
  · simp only [Store, hA]
  · rw [hs]
    simp only [Has, hA, AList.lookup_insert]
  · rw [hdel]
  · rw [hdel]
    simp only [Has, hA, AList.lookup_erase]
  · rw [hdel]
    simp only [GetAll, AList.erase, AList.insert_entries, AList.empty_entries,
      List.kerase_nil]
    have hk : List.kerase id [(⟨id, some A⟩ : Sigma (fun _ : String => Option D))] = [] :=
      List.kerase_cons_eq rfl
    rw [hk]
    rfl

theorem C11_scenario_witness :
    sampleID (some 0) = .ok "d1" ∧
    (Store sampleID NewDiagramCache (some 0)).2 = none ∧
    Has sampleID (Store sampleID NewDiagramCache (some 0)).1 (some 0) = (true, none) ∧
    Get sampleID (Store sampleID NewDiagramCache (some 0)).1 (some 0) = (some 0, none) ∧
    (Delete sampleID (Store sampleID NewDiagramCache (some 0)).1 (some 0)).2 = none ∧
    Has sampleID (Delete sampleID (Store sampleID NewDiagramCache (some 0)).1 (some 0)).1
      (some 0) = (false, none) ∧
    GetAll (Delete sampleID (Store sampleID NewDiagramCache (some 0)).1 (some 0)).1
      = ([], none) ∧
    GetAll (NewDiagramCache : inMemoryDiagramCache Nat) = ([], none) :=
  ⟨rfl, C11_scenario sampleID 0 "d1" rfl⟩

/-! ## One diagram per ID -/

/-- C12: in every cache state reached from `NewDiagramCache` by a sequence of `Store` and
`Delete` calls, every entry of the map is keyed by the ID of the value it holds, the
values `GetAll` returns have pairwise different IDs, and two returned values of the same
ID are the same value. -/
theorem C12_one_diagram_per_id (calls : List (Call D)) :
    (∀ (k : String) (v : Option D),
      (run ID calls).idToDiagram.lookup k = some v → ID v = .ok k) ∧
    (GetAll (run ID calls)).1.Pairwise (fun v w => ID v ≠ ID w) ∧
    (∀ v ∈ (GetAll (run ID calls)).1, ∀ w ∈ (GetAll (run ID calls)).1,
      ID v = ID w → v = w) := by
  have hw := wellKeyed_run ID calls
  refine ⟨?_, pairwise_getAll ID hw, ?_⟩
  · intro k v hl
    exact hw ⟨k, v⟩ (AList.mem_lookup_iff.1 hl)
  · intro v hv w hmw hvw
    obtain ⟨k, hk⟩ := (mem_getAll_iff _ v).1 hv
    have hidv : ID v = .ok k := hw ⟨k, v⟩ (AList.mem_lookup_iff.1 hk)
    have hlw := lookup_of_mem_getAll ID hw (hvw ▸ hidv) hmw
    rw [hk] at hlw
    exact Option.some.inj hlw

theorem C12_one_diagram_per_id_witness :
    (run sampleID [Call.store (some 0), Call.store (some 2)]).idToDiagram.lookup "d1"
      = some (some 0) ∧
    sampleID (some 0) = .ok "d1" :=
  have hl : (run sampleID [Call.store (some 0), Call.store (some 2)]).idToDiagram.lookup "d1"
      = some (some 0) := by
    simp only [run, List.foldl, Call.apply, Store, sampleID, NewDiagramCache]
    rw [AList.lookup_insert_ne (by decide), AList.lookup_insert]
  ⟨hl, (C12_one_diagram_per_id sampleID [Call.store (some 0), Call.store (some 2)]).1
    "d1" (some 0) hl⟩

/-! ## Failed calls -/

/-- C13: in every cache state, for `d` whose ID computation fails, `Store(d)` and
`Delete(d)` leave the cache exactly as it was, so `Has`, `Get` and `GetAll` give the same
results before and after the failed call, for every argument. -/
theorem C13_failed_calls_are_atomic (c : inMemoryDiagramCache D) (d : Option D)
    (err : GoError) (hd : ID d = .error err) :
    (Store ID c d).1 = c ∧ (Delete ID c d).1 = c ∧
    (∀ d' : Option D,
      Has ID (Store ID c d).1 d' = Has ID c d' ∧ Get ID (Store ID c d).1 d' = Get ID c d' ∧
      Has ID (Delete ID c d).1 d' = Has ID c d' ∧
      Get ID (Delete ID c d).1 d' = Get ID c d') ∧
    GetAll (Store ID c d).1 = GetAll c ∧ GetAll (Delete ID c d).1 = GetAll c := by
  have hs : (Store ID c d).1 = c := by simp only [Store, hd]
  have hdel : (Delete ID c d).1 = c := by simp only [Delete, hd]
  rw [hs, hdel]
  exact ⟨rfl, rfl, fun _ => ⟨rfl, rfl, rfl, rfl⟩, rfl, rfl⟩

theorem C13_failed_calls_are_atomic_witness :
    sampleID (some 7) = .error (GoError.leaf "boom") ∧
    (Store sampleID staleCache (some 7)).1 = staleCache ∧
    (Delete sampleID staleCache (some 7)).1 = staleCache ∧
    Has sampleID (Store sampleID staleCache (some 7)).1 (some 0)
      = Has sampleID staleCache (some 0) ∧
    Get sampleID (Delete sampleID staleCache (some 7)).1 (some 0)
      = Get sampleID staleCache (some 0) ∧
    GetAll (Store sampleID staleCache (some 7)).1 = GetAll staleCache ∧
    GetAll (Delete sampleID staleCache (some 7)).1 = GetAll staleCache :=
  have h := C13_failed_calls_are_atomic sampleID staleCache (some 7) (GoError.leaf "boom") rfl
  ⟨rfl, h.1, h.2.1, (h.2.2.1 (some 0)).1, (h.2.2.1 (some 0)).2.2.2, h.2.2.2.1, h.2.2.2.2⟩

/-! ## Frame -/

/-- C14: in every cache state, for `d` and `d'` whose ID computations succeed with
different IDs, `Has(d')` and `Get(d')` give the same results before and after
`Store(d)`, and the same results before and after `Delete(d)`. -/
theorem C14_other_ids_untouched (c : inMemoryDiagramCache D) (d d' : Option D)
    (id id' : String) (hd : ID d = .ok id) (hd' : ID d' = .ok id') (hne : id ≠ id') :
    Has ID (Store ID c d).1 d' = Has ID c d' ∧ Get ID (Store ID c d).1 d' = Get ID c d' ∧
    Has ID (Delete ID c d).1 d' = Has ID c d' ∧
    Get ID (Delete ID c d).1 d' = Get ID c d' := by
  have hs : (Store ID c d).1.idToDiagram.lookup id' = c.idToDiagram.lookup id' := by
    simp only [Store, hd]
    exact AList.lookup_insert_ne (Ne.symm hne)
  have hdel : (Delete ID c d).1.idToDiagram.lookup id' = c.idToDiagram.lookup id' := by
    simp only [Delete, hd]
    cases hl : c.idToDiagram.lookup id with
    | none => rfl
    | some v => exact AList.lookup_erase_ne (Ne.symm hne)
  simp only [Has, Get, hd', hs, hdel, and_self]

theorem C14_other_ids_untouched_witness :
    sampleID (some 0) = .ok "d1" ∧ sampleID (some 2) = .ok "d2" ∧ "d1" ≠ "d2" ∧
    Has sampleID (Store sampleID staleCache (some 0)).1 (some 2)
      = Has sampleID staleCache (some 2) ∧
    Get sampleID (Store sampleID staleCache (some 0)).1 (some 2)
      = Get sampleID staleCache (some 2) ∧
    Has sampleID (Delete sampleID staleCache (some 0)).1 (some 2)
      = Has sampleID staleCache (some 2) ∧
    Get sampleID (Delete sampleID staleCache (some 0)).1 (some 2)
      = Get sampleID staleCache (some 2) :=
  ⟨rfl, rfl, by decide,
    C14_other_ids_untouched sampleID staleCache (some 0) (some 2) "d1" "d2" rfl rfl
      (by decide)⟩

/-! ## Length of GetAll -/

/-- C15: in every cache state, for `d` whose ID computation succeeds with `id`: `Store(d)`
makes the result of `GetAll` one longer when the map held no entry for `id` and leaves
its length as it was when the map held one; `Delete(d)` makes it one shorter when the
map held an entry for `id` and leaves its length as it was when the map held none. -/
theorem C15_getAll_length (c : inMemoryDiagramCache D) (d : Option D) (id : String)
    (hd : ID d = .ok id) :
    (c.idToDiagram.lookup id = none →
      (GetAll (Store ID c d).1).1.length = (GetAll c).1.length + 1) ∧
    (∀ v, c.idToDiagram.lookup id = some v →
      (GetAll (Store ID c d).1).1.length = (GetAll c).1.length) ∧
    (∀ v, c.idToDiagram.lookup id = some v →
      (GetAll (Delete ID c d).1).1.length + 1 = (GetAll c).1.length) ∧
    (c.idToDiagram.lookup id = none →
      (GetAll (Delete ID c d).1).1.length = (GetAll c).1.length) := by
  have hs : (GetAll (Store ID c d).1).1.length
      = (List.kerase id c.idToDiagram.entries).length + 1 := by
    simp only [Store, hd, getAll_insert, List.length_cons, List.length_map]
  have hg : (GetAll c).1.length = c.idToDiagram.entries.length := by
    simp only [GetAll, List.length_map]
  refine ⟨?_, ?_, ?_, ?_⟩
  · intro hl
    rw [hs, hg, length_kerase_of_lookup_none hl]
  · intro v hl
    rw [hs, hg, length_kerase_of_lookup_some hl]
  · intro v hl
    rw [hg, ← length_kerase_of_lookup_some hl]
    simp only [Delete, hd, hl, GetAll, List.length_map, AList.erase]
  · intro hl
    simp only [Delete, hd, hl]

theorem C15_getAll_length_witness :
    sampleID (some 2) = .ok "d2" ∧ sampleID (some 0) = .ok "d1" ∧
    staleCache.idToDiagram.lookup "d2" = none ∧
    (GetAll (Store sampleID staleCache (some 2)).1).1.length
      = (GetAll staleCache).1.length + 1 ∧
    (GetAll (Delete sampleID staleCache (some 2)).1).1.length
      = (GetAll staleCache).1.length ∧
    nilEntryCache.idToDiagram.lookup "d1" = some none ∧
    (GetAll (Store sampleID nilEntryCache (some 0)).1).1.length
      = (GetAll nilEntryCache).1.length ∧
    (GetAll (Delete sampleID nilEntryCache (some 0)).1).1.length + 1
      = (GetAll nilEntryCache).1.length :=
  have hl : staleCache.idToDiagram.lookup "d2" = none := by
    simp only [staleCache]
    rw [AList.lookup_insert_ne (by decide), AList.lookup_empty]
  have hl' : nilEntryCache.idToDiagram.lookup "d1" = some none := by
    simp only [nilEntryCache, AList.lookup_insert]
  have h := C15_getAll_length sampleID staleCache (some 2) "d2" rfl
  have h' := C15_getAll_length sampleID nilEntryCache (some 0) "d1" rfl
  ⟨rfl, rfl, hl, h.1 hl, h.2.2.2 hl, hl', h'.2.1 none hl', h'.2.2.1 none hl'⟩

end Claims

end MermaidCache
